import Mathlib

/-!
Verification of the rubix PSF core (`src/notebooks/psf.ipynb`).

The notebook defines two functions over jax arrays:

* `_convolve_plane(plane, kernel)`  — `convolve2d(plane, kernel, mode="same")`;
* `apply_psf(datacube, psf_kernel)` — reads `datacube.shape`, convolves each
  spectral plane `datacube[:, :, i]` for `i in range(shape[2])` with the kernel,
  stacks the results with `jnp.array`, and reorders axes with
  `jnp.transpose(·, (1, 2, 0))`.

Arrays are modelled as a shape list together with a total entry function on
index lists (entries outside the valid index range are junk, so array equality
is the extensional relation `NDArray.Eqv`).  Floating point numbers are
modelled as exact rationals (reals for the Gaussian kernel builder).  A Python
exception escaping a function is modelled by `Option.none` / `Except.error`.
-/

set_option maxHeartbeats 1000000

/-- An n-dimensional numeric array: a shape together with a total entry
function.  Only values at index lists that are valid for `shape` are
meaningful. -/
structure NDArray (α : Type) where
  shape : List Nat
  entry : List Nat → α

namespace NDArray

/-- `a.ndim`: number of axes. -/
def ndim (a : NDArray α) : Nat := a.shape.length

/-- All valid index tuples of a shape, in row-major order. -/
def allIdx : List Nat → List (List Nat)
  | [] => [[]]
  | n :: s => (List.range n).flatMap (fun i => (allIdx s).map (fun ix => i :: ix))

/-- Extensional equality of arrays: same shape and the same entry at every
valid index. -/
def Eqv (a b : NDArray α) : Prop :=
  a.shape = b.shape ∧ ∀ ix ∈ allIdx a.shape, a.entry ix = b.entry ix

end NDArray

/-- The numpy slice `datacube[:, :, i]`: axis 2 is dropped from the shape and
pinned to `i` in the entry function. -/
def sliceAxis2 (a : NDArray α) (i : Nat) : NDArray α :=
  ⟨a.shape.eraseIdx 2, fun ix => a.entry (ix.take 2 ++ i :: ix.drop 2)⟩

/-- Zero-padded read of a 2-dimensional array at integer coordinates: outside
the array the value is 0 (the boundary policy of scipy/jax `convolve2d` with
`boundary="fill", fillvalue=0`, the default used by the notebook). -/
def zpad2 (p : NDArray ℚ) (x y : ℤ) : ℚ :=
  if 0 ≤ x ∧ x < (p.shape.getD 0 0 : ℤ) ∧ 0 ≤ y ∧ y < (p.shape.getD 1 0 : ℤ) then
    p.entry [x.toNat, y.toNat]
  else 0

/-- One output value of `convolve2d(plane, kernel, mode="same")`: the "same"
mode takes the centred slice of the full (flipped-kernel) convolution, whose
offset along an axis of kernel extent `K` is `(K - 1) / 2`, with zero padding
outside the plane. -/
def sameConvEntry (p k : NDArray ℚ) (x y : Nat) : ℚ :=
  ∑ i in Finset.range (k.shape.getD 0 0), ∑ j in Finset.range (k.shape.getD 1 0),
    k.entry [i, j] *
      zpad2 p ((x : ℤ) + (((k.shape.getD 0 0 - 1) / 2 : ℕ) : ℤ) - (i : ℤ))
              ((y : ℤ) + (((k.shape.getD 1 0 - 1) / 2 : ℕ) : ℤ) - (j : ℤ))

/-- The acceptance condition of `jax.scipy.signal.convolve2d(p, k, mode="same")`:
`convolve2d` itself raises unless both inputs are 2-dimensional, and the
underlying `_convolve_nd` additionally raises `ValueError` on zero-size inputs
and unless one input is at least as large as the other in every dimension
(jax is stricter than scipy here: mixed-dominance shapes are rejected). -/
abbrev convolve2dDefined (p k : NDArray ℚ) : Prop :=
  p.ndim = 2 ∧ k.ndim = 2 ∧
    0 < p.shape.getD 0 0 ∧ 0 < p.shape.getD 1 0 ∧
    0 < k.shape.getD 0 0 ∧ 0 < k.shape.getD 1 0 ∧
    ((k.shape.getD 0 0 ≤ p.shape.getD 0 0 ∧ k.shape.getD 1 0 ≤ p.shape.getD 1 0) ∨
      (p.shape.getD 0 0 ≤ k.shape.getD 0 0 ∧ p.shape.getD 1 0 ≤ k.shape.getD 1 0))

/-- `jax.scipy.signal.convolve2d(p, k, mode="same")`: on the accepted shapes
the output has the shape of `p` and the value `sameConvEntry` at every
position (when the second input is the larger one in every dimension, jax
swaps the operands and adjusts the padding so the result still matches
scipy's `same` convolution of `p` by `k`, i.e. the centred-slice formula of
`sameConvEntry`); on every other shape jax raises, modelled as `none`. -/
def convolve2d_same (p k : NDArray ℚ) : Option (NDArray ℚ) :=
  if convolve2dDefined p k then
    some ⟨p.shape, fun ix => sameConvEntry p k (ix.getD 0 0) (ix.getD 1 0)⟩
  else none

/-- `_convolve_plane` from the notebook (the leading underscore is dropped;
Lean names cannot start with one): convolve a single plane of a datacube with
a kernel. -/
def convolve_plane (plane kernel : NDArray ℚ) : Option (NDArray ℚ) :=
  convolve2d_same plane kernel

/-- Sequencing of a fallible computation over a list: the Python list
comprehension in `apply_psf`, where any element may raise. -/
def traverseOption (f : α → Option β) : List α → Option (List β)
  | [] => some []
  | a :: as =>
    match f a, traverseOption f as with
    | some b, some bs => some (b :: bs)
    | _, _ => none

/-- `jnp.array` applied to a list of equally-shaped arrays: stacks them along
a new leading axis; the empty list gives a 1-dimensional array of shape
`(0,)`. -/
def stackPlanes : List (NDArray ℚ) → NDArray ℚ
  | [] => ⟨[0], fun _ => 0⟩
  | p :: rest =>
    ⟨(p :: rest).length :: p.shape,
      fun ix => ((p :: rest).getD (ix.getD 0 0) p).entry ix.tail⟩

/-- `jnp.transpose(a, (1, 2, 0))`: defined only for a 3-dimensional array
(jax raises a `ValueError` otherwise); `out[x, y, c] = a[c, x, y]`. -/
def transpose120 (a : NDArray ℚ) : Option (NDArray ℚ) :=
  if a.ndim = 3 then
    some ⟨[a.shape.getD 1 0, a.shape.getD 2 0, a.shape.getD 0 0],
      fun ix => a.entry [ix.getD 2 0, ix.getD 0 0, ix.getD 1 0]⟩
  else none

/-- `apply_psf` from the notebook: read `datacube.shape` (indexing it at 2
raises when the array has fewer than 3 axes), convolve each plane
`datacube[:, :, i]` with the kernel for `i in range(shape[2])`, stack with
`jnp.array` and reorder the axes with `jnp.transpose(·, (1, 2, 0))`. -/
def apply_psf (datacube psf_kernel : NDArray ℚ) : Option (NDArray ℚ) :=
  match datacube.shape[2]? with
  | none => none
  | some C =>
    match traverseOption
        (fun i => convolve_plane (sliceAxis2 datacube i) psf_kernel)
        (List.range C) with
    | none => none
    | some planes => transpose120 (stackPlanes planes)

/-- The error taxonomy of the spec (§7).  The convolver code in
`src/notebooks/psf.ipynb` surfaces no error kinds of its own; the taxonomy is
used by the spec-modelled kernel builder below. -/
inductive RubixErrorKind where
  | InvalidParameter
  | ShapeMismatch
deriving DecidableEq

/-- The unnormalized 2-dimensional isotropic Gaussian density at grid point
`(i, j)`, centred at `(height / 2, width / 2)` (the spec's midpoint centering
convention, §4.1). -/
noncomputable def gaussianDensity (height width spread : ℝ) (i j : ℕ) : ℝ :=
  Real.exp (-(((i : ℝ) - height / 2) ^ 2 + ((j : ℝ) - width / 2) ^ 2) /
    (2 * spread ^ 2))

/-- Modelled from the spec: `gaussian_kernel_2d` lives in
`rubix.telescope.psf.kernels`, which is not under `src/` — the notebook only
imports and calls it.  Following §4.1 of the spec: first validate the
parameters (`InvalidParameter` when `height` or `width` is non-positive or
non-integer, or `spread` is non-positive, before any computation), then
evaluate a 2-dimensional isotropic Gaussian density on the integer grid
centred at `(height / 2, width / 2)` and divide every entry by the grid's
total sum.  Floats are modelled as exact reals. -/
noncomputable def gaussian_kernel_2d (height width spread : ℝ) :
    Except RubixErrorKind (NDArray ℝ) :=
  open Classical in
  if 0 < height ∧ Int.fract height = 0 ∧ 0 < width ∧ Int.fract width = 0 ∧
      0 < spread then
    Except.ok
      ⟨[(⌊height⌋).toNat, (⌊width⌋).toNat],
        fun ix =>
          gaussianDensity height width spread (ix.getD 0 0) (ix.getD 1 0) /
            ∑ i in Finset.range (⌊height⌋).toNat,
              ∑ j in Finset.range (⌊width⌋).toNat,
                gaussianDensity height width spread i j⟩
  else
    Except.error RubixErrorKind.InvalidParameter

/-- Written from the spec's words (the refinement target for the convolver):
each output value at `[x, y, c]` is the same-size zero-padded convolution of
the plane `datacube[:, :, c]` with the kernel, the kernel's centre
(`(K - 1) / 2` along an axis of extent `K`; for odd extents this is the exact
midpoint, the spec leaves even extents open, §9) aligned to the output pixel
and out-of-bounds contributions treated as zero. -/
def spec_blur (d k : NDArray ℚ) : NDArray ℚ :=
  ⟨d.shape, fun ix =>
    ∑ i in Finset.range (k.shape.getD 0 0), ∑ j in Finset.range (k.shape.getD 1 0),
      k.entry [i, j] *
        (if 0 ≤ (ix.getD 0 0 : ℤ) + (((k.shape.getD 0 0 - 1) / 2 : ℕ) : ℤ) - (i : ℤ)
            ∧ (ix.getD 0 0 : ℤ) + (((k.shape.getD 0 0 - 1) / 2 : ℕ) : ℤ) - (i : ℤ)
                < (d.shape.getD 0 0 : ℤ)
            ∧ 0 ≤ (ix.getD 1 0 : ℤ) + (((k.shape.getD 1 0 - 1) / 2 : ℕ) : ℤ) - (j : ℤ)
            ∧ (ix.getD 1 0 : ℤ) + (((k.shape.getD 1 0 - 1) / 2 : ℕ) : ℤ) - (j : ℤ)
                < (d.shape.getD 1 0 : ℤ)
         then
           d.entry
             [((ix.getD 0 0 : ℤ) + (((k.shape.getD 0 0 - 1) / 2 : ℕ) : ℤ) - (i : ℤ)).toNat,
              ((ix.getD 1 0 : ℤ) + (((k.shape.getD 1 0 - 1) / 2 : ℕ) : ℤ) - (j : ℤ)).toNat,
              ix.getD 2 0]
         else 0)⟩

/-- The degenerate identity kernel: all entries zero except a single 1 at the
centre `((Kx - 1) / 2, (Ky - 1) / 2)`. -/
def deltaKernel (Kx Ky : ℕ) : NDArray ℚ :=
  ⟨[Kx, Ky],
    fun ix => if ix.getD 0 0 = (Kx - 1) / 2 ∧ ix.getD 1 0 = (Ky - 1) / 2 then 1 else 0⟩

/-- Entrywise scalar multiple of an array (exact arithmetic). -/
def NDArray.scale (a : ℚ) (A : NDArray ℚ) : NDArray ℚ :=
  ⟨A.shape, fun ix => a * A.entry ix⟩

/-- Entrywise sum of two arrays of the same shape (exact arithmetic). -/
def NDArray.addE (A B : NDArray ℚ) : NDArray ℚ :=
  ⟨A.shape, fun ix => A.entry ix + B.entry ix⟩

/-- The array produced by a successful `convolve2d_same` on a plane of `d`. -/
def convPlaneOut (d k : NDArray ℚ) (i : ℕ) : NDArray ℚ :=
  ⟨(sliceAxis2 d i).shape,
    fun ix => sameConvEntry (sliceAxis2 d i) k (ix.getD 0 0) (ix.getD 1 0)⟩

theorem traverseOption_eq_map (f : α → Option β) (g : α → β) (l : List α)
    (h : ∀ a ∈ l, f a = some (g a)) : traverseOption f l = some (l.map g) := by
  induction l with
  | nil => rfl
  | cons a as ih =>
    have ha := h a (List.mem_cons_self a as)
    have has : ∀ b ∈ as, f b = some (g b) := fun b hb => h b (List.mem_cons_of_mem a hb)
    simp [traverseOption, ha, ih has]

theorem getD_map_range {β : Type} (g : ℕ → β) (C c : ℕ) (hc : c < C) (dfl : β) :
    ((List.range C).map g).getD c dfl = g c := by
  rw [List.getD_eq_getElem?_getD]
  simp [List.getElem?_map, List.getElem?_range, hc]

theorem mem_allIdx3 (X Y C : ℕ) (ix : List ℕ) :
    ix ∈ NDArray.allIdx [X, Y, C] ↔
      ∃ x y c, ix = [x, y, c] ∧ x < X ∧ y < Y ∧ c < C := by
  simp only [NDArray.allIdx, List.mem_flatMap, List.mem_map, List.mem_range,
    List.mem_singleton]
  constructor
  · rintro ⟨x, hx, t, ⟨y, hy, u, ⟨c, hc, v, rfl, rfl⟩, rfl⟩, rfl⟩
    exact ⟨x, y, c, rfl, hx, hy, hc⟩
  · rintro ⟨x, y, c, rfl, hx, hy, hc⟩
    exact ⟨x, hx, _, ⟨y, hy, _, ⟨c, hc, [], rfl, rfl⟩, rfl⟩, rfl⟩

/-- Stacking the convolved planes with `jnp.array` and transposing with axes
`(1, 2, 0)` yields the final datacube of the original shape. -/
theorem stack_transpose_eq (d k : NDArray ℚ) (X Y C' : ℕ)
    (hsl : ∀ i, (sliceAxis2 d i).shape = [X, Y]) :
    transpose120 (stackPlanes ((List.range (C' + 1)).map (convPlaneOut d k))) =
      some ⟨[X, Y, C' + 1],
        fun ix =>
          (((List.range (C' + 1)).map (convPlaneOut d k)).getD (ix.getD 2 0)
              (convPlaneOut d k 0)).entry [ix.getD 0 0, ix.getD 1 0]⟩ := by
  have hlen : (List.range (C' + 1)).map (convPlaneOut d k) =
      convPlaneOut d k 0 :: ((List.range C').map (convPlaneOut d k ∘ Nat.succ)) := by
    rw [List.range_succ_eq_map, List.map_cons, List.map_map]
  have hstack : stackPlanes ((List.range (C' + 1)).map (convPlaneOut d k)) =
      ⟨[C' + 1, X, Y],
        fun ix =>
          (((List.range (C' + 1)).map (convPlaneOut d k)).getD (ix.getD 0 0)
              (convPlaneOut d k 0)).entry ix.tail⟩ := by
    rw [hlen]
    simp only [stackPlanes]
    congr 1
    simp [convPlaneOut, hsl, List.length_map, List.length_range]
  rw [hstack]
  rfl

/-- Central characterization of a successful `apply_psf` run: on a
3-dimensional datacube with non-zero spatial extent and at least one channel,
and a kernel of non-zero size that is dominated by the plane, or dominates it,
in both axes (exactly the shapes jax's `convolve2d` accepts), `apply_psf`
succeeds, preserves the shape, and each output value at `[x, y, c]` is the
same-size convolution of plane `c` with the kernel. -/
theorem apply_psf_spec (d k : NDArray ℚ) (X Y C Kx Ky : ℕ)
    (hd : d.shape = [X, Y, C]) (hC : 1 ≤ C) (hk : k.shape = [Kx, Ky])
    (hX : 0 < X) (hY : 0 < Y) (hKx : 0 < Kx) (hKy : 0 < Ky)
    (hdom : Kx ≤ X ∧ Ky ≤ Y ∨ X ≤ Kx ∧ Y ≤ Ky) :
    ∃ out, apply_psf d k = some out ∧ out.shape = [X, Y, C] ∧
      ∀ x y c, c < C →
        out.entry [x, y, c] = sameConvEntry (sliceAxis2 d c) k x y := by
  obtain ⟨C', rfl⟩ : ∃ C', C = C' + 1 := ⟨C - 1, by omega⟩
  have hsl : ∀ i, (sliceAxis2 d i).shape = [X, Y] := by
    intro i
    simp [sliceAxis2, hd]
  have h2 : d.shape[2]? = some (C' + 1) := by rw [hd]; rfl
  have hcond : ∀ i, convolve2dDefined (sliceAxis2 d i) k := by
    intro i
    refine ⟨by simp [NDArray.ndim, hsl i], by simp [NDArray.ndim, hk], ?_⟩
    rw [hsl i, hk]
    exact ⟨hX, hY, hKx, hKy, hdom⟩
  have hconv : ∀ i ∈ List.range (C' + 1),
      convolve_plane (sliceAxis2 d i) k = some (convPlaneOut d k i) := by
    intro i _
    unfold convolve_plane convolve2d_same convPlaneOut
    rw [if_pos (hcond i)]
  have htrav := traverseOption_eq_map _ (convPlaneOut d k) _ hconv
  have happ : apply_psf d k =
      transpose120 (stackPlanes ((List.range (C' + 1)).map (convPlaneOut d k))) := by
    simp only [apply_psf, h2, htrav]
  rw [stack_transpose_eq d k X Y C' hsl] at happ
  refine ⟨_, happ, rfl, ?_⟩
  intro x y c hc
  show (((List.range (C' + 1)).map (convPlaneOut d k)).getD c
      (convPlaneOut d k 0)).entry [x, y] = _
  rw [getD_map_range _ _ _ hc]
  rfl

/-- Inversion for `traverseOption`: a successful traversal determines every
element of the result from the successful value of `f` at each input. -/
theorem traverseOption_some_inv (f : α → Option β) (g : α → β) :
    ∀ (l : List α) (res : List β), traverseOption f l = some res →
      (∀ a ∈ l, ∀ b, f a = some b → b = g a) → res = l.map g := by
  intro l
  induction l with
  | nil =>
    intro res h _
    simp only [traverseOption, Option.some_inj] at h
    simp [← h]
  | cons a as ih =>
    intro res h hg
    cases hfa : f a with
    | none =>
      cases hrest : traverseOption f as with
      | none => simp [traverseOption, hfa, hrest] at h
      | some bs => simp [traverseOption, hfa, hrest] at h
    | some b =>
      cases hrest : traverseOption f as with
      | none => simp [traverseOption, hfa, hrest] at h
      | some bs =>
        simp only [traverseOption, hfa, hrest, Option.some_inj] at h
        rw [← h, List.map_cons]
        have hb := hg a (List.mem_cons_self a as) b hfa
        have hbs := ih bs hrest (fun a2 ha2 => hg a2 (List.mem_cons_of_mem a ha2))
        rw [hb, hbs]

/-- Inversion for `apply_psf`: any successful run on a 3-dimensional datacube
preserves the shape and computes each output value at `[x, y, c]` as the
same-size convolution of plane `c` with the kernel. -/
theorem apply_psf_some_inv (d k out : NDArray ℚ) (X Y C : ℕ)
    (hd : d.shape = [X, Y, C]) (h : apply_psf d k = some out) :
    out.shape = [X, Y, C] ∧
      ∀ x y c, c < C →
        out.entry [x, y, c] = sameConvEntry (sliceAxis2 d c) k x y := by
  have hsl : ∀ i, (sliceAxis2 d i).shape = [X, Y] := by
    intro i
    simp [sliceAxis2, hd]
  have h2 : d.shape[2]? = some C := by rw [hd]; rfl
  simp only [apply_psf, h2] at h
  cases htrav : traverseOption
      (fun i => convolve_plane (sliceAxis2 d i) k) (List.range C) with
  | none => rw [htrav] at h; simp at h
  | some planes =>
    rw [htrav] at h
    replace h : transpose120 (stackPlanes planes) = some out := h
    have hplanes : planes = (List.range C).map (convPlaneOut d k) := by
      apply traverseOption_some_inv _ _ _ _ htrav
      intro i _ b hb
      unfold convolve_plane convolve2d_same at hb
      by_cases hco : convolve2dDefined (sliceAxis2 d i) k
      · rw [if_pos hco] at hb
        exact (Option.some_inj.mp hb).symm
      · rw [if_neg hco] at hb
        exact absurd hb (by simp)
    subst hplanes
    cases C with
    | zero =>
      simp [List.range_zero, stackPlanes, transpose120, NDArray.ndim] at h
    | succ C' =>
      rw [stack_transpose_eq d k X Y C' hsl] at h
      have hout := Option.some_inj.mp h
      rw [← hout]
      refine ⟨rfl, ?_⟩
      intro x y c hc
      show (((List.range (C' + 1)).map (convPlaneOut d k)).getD c
          (convPlaneOut d k 0)).entry [x, y] = _
      rw [getD_map_range _ _ _ hc]
      rfl

/-- On a 3-dimensional datacube, the same-size convolution of the sliced plane
`c` agrees with the spec's formula at `[x, y, c]`. -/
theorem sameConvEntry_slice_eq_spec (d k : NDArray ℚ) (X Y C : ℕ)
    (hd : d.shape = [X, Y, C]) (x y c : ℕ) :
    sameConvEntry (sliceAxis2 d c) k x y = (spec_blur d k).entry [x, y, c] := by
  simp only [sameConvEntry, spec_blur, zpad2, sliceAxis2, hd]
  rfl

/-- A concrete 2 × 2 × 1 datacube used by witnesses. -/
def sampleCube : NDArray ℚ :=
  ⟨[2, 2, 1], fun ix => (ix.getD 0 0 : ℚ) + 2 * (ix.getD 1 0 : ℚ) + 7 * (ix.getD 2 0 : ℚ)⟩

/-- A concrete 3 × 3 kernel used by witnesses. -/
def sampleKernel : NDArray ℚ :=
  ⟨[3, 3], fun ix => (ix.getD 0 0 : ℚ) + (ix.getD 1 0 : ℚ)⟩

/-- A concrete 5 × 5 × 1 datacube with non-degenerate shape. -/
def wideCube : NDArray ℚ := ⟨[5, 5, 1], fun _ => 1⟩

/-- A 3 × 7 kernel: smaller than a 5 × 5 plane in one axis and larger in the
other (a mixed-dominance shape that jax's `convolve2d` rejects). -/
def mixedKernel : NDArray ℚ := ⟨[3, 7], fun _ => 1⟩

/-- C1 counterexample: on a 5 × 5 × 1 datacube and the 2-dimensional 3 × 7
kernel, jax's convolution raises (one input must be smaller than the other in
every dimension), so `apply_psf` fails instead of returning a datacube of
shape (5, 5, 1). -/
theorem C1_counterexample : apply_psf wideCube mixedKernel = none := rfl

/-- C1 (amended): for every 3-dimensional datacube of shape `(X, Y, C)` with
`X, Y ≥ 1` and `C ≥ 1`, and every 2-dimensional kernel of non-zero size that
either fits within the plane in both axes or covers it in both axes (the
shapes jax's `convolve2d` accepts), `apply_psf` succeeds and returns a
datacube of shape exactly `(X, Y, C)`; on mixed-dominance or zero-size shapes
the convolution raises instead. -/
theorem C1_apply_psf_preserves_shape (d k : NDArray ℚ) (X Y C Kx Ky : ℕ)
    (hd : d.shape = [X, Y, C]) (hC : 1 ≤ C) (hk : k.shape = [Kx, Ky])
    (hX : 0 < X) (hY : 0 < Y) (hKx : 0 < Kx) (hKy : 0 < Ky)
    (hdom : Kx ≤ X ∧ Ky ≤ Y ∨ X ≤ Kx ∧ Y ≤ Ky) :
    ∃ out, apply_psf d k = some out ∧ out.shape = [X, Y, C] := by
  obtain ⟨out, h1, h2, _⟩ := apply_psf_spec d k X Y C Kx Ky hd hC hk hX hY hKx hKy hdom
  exact ⟨out, h1, h2⟩

/-- Witness for the amended C1 at a concrete 2 × 2 × 1 cube and 3 × 3 kernel
(the kernel covers the plane in both axes, jax's swap branch). -/
theorem C1_witness :
    ∃ out, apply_psf sampleCube sampleKernel = some out ∧ out.shape = [2, 2, 1] :=
  C1_apply_psf_preserves_shape sampleCube sampleKernel 2 2 1 3 3 rfl (by decide)
    rfl (by decide) (by decide) (by decide) (by decide) (by decide)

/-- A concrete 4 × 4 × 1 datacube. -/
def tallCube : NDArray ℚ := ⟨[4, 4, 1], fun _ => 2⟩

/-- A 6 × 2 kernel: larger than a 4 × 4 plane in one axis, smaller in the
other. -/
def mixedKernel2 : NDArray ℚ := ⟨[6, 2], fun _ => 1⟩

/-- C2 counterexample: on a 4 × 4 × 1 datacube and the 2-dimensional 6 × 2
kernel, `apply_psf` produces no output at all (jax rejects mixed-dominance
shapes), so it does not compute the per-channel same-size convolution the
claim describes for every 3-dimensional datacube and 2-d kernel. -/
theorem C2_counterexample : apply_psf tallCube mixedKernel2 = none := rfl

/-- C2 (amended): for every 3-dimensional datacube (non-zero spatial dims, at
least one channel) and 2-dimensional kernel of non-zero size accepted by
jax's `convolve2d` (one of plane/kernel at least as large as the other in
both axes), `apply_psf` computes each output channel `c` as the same-size
zero-padded convolution of the input plane `datacube[:, :, c]` with the
kernel (planes produced in `(C, X, Y)` order, then transposed back to the
original `(X, Y, C)` axis order): the result is extensionally equal to the
spec-level description `spec_blur`.  On the rejected shapes the convolution
raises instead. -/
theorem C2_apply_psf_refines_spec (d k : NDArray ℚ) (X Y C Kx Ky : ℕ)
    (hd : d.shape = [X, Y, C]) (hC : 1 ≤ C) (hk : k.shape = [Kx, Ky])
    (hX : 0 < X) (hY : 0 < Y) (hKx : 0 < Kx) (hKy : 0 < Ky)
    (hdom : Kx ≤ X ∧ Ky ≤ Y ∨ X ≤ Kx ∧ Y ≤ Ky) :
    ∃ out, apply_psf d k = some out ∧ NDArray.Eqv out (spec_blur d k) := by
  obtain ⟨out, h1, h2, h3⟩ :=
    apply_psf_spec d k X Y C Kx Ky hd hC hk hX hY hKx hKy hdom
  refine ⟨out, h1, ?_, ?_⟩
  · rw [h2]
    exact hd.symm
  · intro ix hix
    rw [h2] at hix
    obtain ⟨x, y, c, rfl, _, _, hc⟩ := (mem_allIdx3 X Y C ix).1 hix
    rw [h3 x y c hc, sameConvEntry_slice_eq_spec d k X Y C hd]

/-- Witness for the amended C2 at a concrete 2 × 2 × 1 cube and 3 × 3
kernel. -/
theorem C2_witness :
    ∃ out, apply_psf sampleCube sampleKernel = some out ∧
      NDArray.Eqv out (spec_blur sampleCube sampleKernel) :=
  C2_apply_psf_refines_spec sampleCube sampleKernel 2 2 1 3 3 rfl (by decide)
    rfl (by decide) (by decide) (by decide) (by decide) (by decide)

/-- A concrete 1 × 1 × 1 datacube whose plane is smaller than `bigKernel`. -/
def tinyCube : NDArray ℚ := ⟨[1, 1, 1], fun _ => 5⟩

/-- A concrete 3 × 3 kernel, larger than the 1 × 1 plane of `tinyCube`. -/
def bigKernel : NDArray ℚ := ⟨[3, 3], fun _ => 1⟩

/-- C3 counterexample: the 3 × 3 kernel has more spatial extent than the
1 × 1 plane of `tinyCube` in both axes, yet `apply_psf` does not fail — it
returns a result; the code performs no kernel-extent (ShapeMismatch) check at
all. -/
theorem C3_counterexample : (apply_psf tinyCube bigKernel).isSome = true := rfl

/-- C3 (amended): `apply_psf` performs no eager shape validation and surfaces
no `ShapeMismatch` error kind; a kernel with more spatial extent than a plane
is accepted and the convolution proceeds.  A datacube with fewer than 3
dimensions does make the call fail, at the point where `datacube.shape[2]` is
read. -/
theorem C3_amended_fails_only_on_missing_axis (d k : NDArray ℚ)
    (hd : d.ndim < 3) : apply_psf d k = none := by
  have h2 : d.shape[2]? = none := by
    apply List.getElem?_eq_none
    exact Nat.lt_succ_iff.mp hd
  simp [apply_psf, h2]

/-- A concrete 2-dimensional array (missing the channel axis). -/
def flatImage : NDArray ℚ := ⟨[4, 4], fun _ => 1⟩

/-- Witness for the amended C3 at a concrete 2-dimensional input. -/
theorem C3_witness : apply_psf flatImage sampleKernel = none :=
  C3_amended_fails_only_on_missing_axis flatImage sampleKernel (by decide)

/-- C9: a datacube with zero spectral channels makes `apply_psf` fail: the
collected list of convolved planes is empty, `jnp.array` of it is
1-dimensional, and the transpose with axes `(1, 2, 0)` is undefined on it. -/
theorem C9_zero_channels_fails (d k : NDArray ℚ) (X Y : ℕ)
    (hd : d.shape = [X, Y, 0]) : apply_psf d k = none := by
  have h2 : d.shape[2]? = some 0 := by rw [hd]; rfl
  simp [apply_psf, h2, traverseOption, stackPlanes, transpose120, NDArray.ndim,
    List.range_zero]

/-- A concrete 2 × 2 × 0 datacube (zero spectral channels). -/
def emptyChannelCube : NDArray ℚ := ⟨[2, 2, 0], fun _ => 0⟩

/-- Witness for C9 at a concrete 2 × 2 × 0 cube. -/
theorem C9_witness : apply_psf emptyChannelCube sampleKernel = none :=
  C9_zero_channels_fails emptyChannelCube sampleKernel 2 2 rfl

/-- A concrete 2 × 1 × 1 datacube whose plane has mixed dominance against a
1 × 3 kernel. -/
def thinCube : NDArray ℚ := ⟨[2, 1, 1], fun ix => (ix.getD 0 0 : ℚ)⟩

/-- C5 counterexample: the degenerate identity kernel of extent 1 × 3 (single
1 at its centre `(0, 1)`) is smaller than the 2 × 1 plane in one axis and
larger in the other, so jax's convolution raises and `apply_psf` fails rather
than returning the original datacube unchanged. -/
theorem C5_counterexample : apply_psf thinCube (deltaKernel 1 3) = none := rfl

/-- C5 (amended): convolving a 3-dimensional datacube (non-zero spatial dims,
at least one channel) with the degenerate identity kernel — all entries zero
except a single entry of value 1 at the centre `((Kx - 1) / 2, (Ky - 1) / 2)`
— via `apply_psf` returns the original datacube unchanged, provided the
kernel's extent is accepted by jax's `convolve2d` (it fits within the plane
in both axes or covers it in both axes); on mixed-dominance extents the
convolution raises instead. -/
theorem C5_identity_kernel (d : NDArray ℚ) (X Y C Kx Ky : ℕ)
    (hd : d.shape = [X, Y, C]) (hC : 1 ≤ C) (hX : 0 < X) (hY : 0 < Y)
    (hKx : 1 ≤ Kx) (hKy : 1 ≤ Ky)
    (hdom : Kx ≤ X ∧ Ky ≤ Y ∨ X ≤ Kx ∧ Y ≤ Ky) :
    ∃ out, apply_psf d (deltaKernel Kx Ky) = some out ∧ NDArray.Eqv out d := by
  obtain ⟨out, h1, h2, h3⟩ :=
    apply_psf_spec d (deltaKernel Kx Ky) X Y C Kx Ky hd hC rfl hX hY hKx hKy hdom
  refine ⟨out, h1, by rw [h2]; exact hd.symm, ?_⟩
  intro ix hix
  rw [h2] at hix
  obtain ⟨x, y, c, rfl, hx, hy, hc⟩ := (mem_allIdx3 X Y C ix).1 hix
  rw [h3 x y c hc]
  have hsl : (sliceAxis2 d c).shape = [X, Y] := by simp [sliceAxis2, hd]
  show (∑ i in Finset.range Kx, ∑ j in Finset.range Ky,
      (if i = (Kx - 1) / 2 ∧ j = (Ky - 1) / 2 then (1 : ℚ) else 0) *
        zpad2 (sliceAxis2 d c) ((x : ℤ) + (((Kx - 1) / 2 : ℕ) : ℤ) - (i : ℤ))
          ((y : ℤ) + (((Ky - 1) / 2 : ℕ) : ℤ) - (j : ℤ))) = d.entry [x, y, c]
  rw [Finset.sum_eq_single ((Kx - 1) / 2)
    (fun i _ hne => Finset.sum_eq_zero
      (fun j _ => by rw [if_neg (fun hand => hne hand.1), zero_mul]))
    (fun hni => absurd (Finset.mem_range.mpr (by omega)) hni)]
  rw [Finset.sum_eq_single ((Ky - 1) / 2)
    (fun j _ hne => by rw [if_neg (fun hand => hne hand.2), zero_mul])
    (fun hnj => absurd (Finset.mem_range.mpr (by omega)) hnj)]
  rw [if_pos ⟨rfl, rfl⟩, one_mul, add_sub_cancel_right, add_sub_cancel_right]
  simp only [zpad2, hsl, List.getD_cons_zero, List.getD_cons_succ]
  rw [if_pos ⟨Int.natCast_nonneg x, by exact_mod_cast hx, Int.natCast_nonneg y,
    by exact_mod_cast hy⟩]
  simp [sliceAxis2]

/-- Witness for the amended C5 at a concrete 2 × 2 × 1 cube and the 3 × 3
identity kernel (which covers the 2 × 2 plane in both axes). -/
theorem C5_witness :
    ∃ out, apply_psf sampleCube (deltaKernel 3 3) = some out ∧
      NDArray.Eqv out sampleCube :=
  C5_identity_kernel sampleCube 2 2 1 3 3 rfl (by decide) (by decide) (by decide)
    (by decide) (by decide) (by decide)

/-- Zero-padded reads agree for two planes of the same shape that agree at
every in-range position. -/
theorem zpad2_congr (p q : NDArray ℚ) (hs : q.shape = p.shape)
    (h : ∀ a b : ℕ, a < p.shape.getD 0 0 → b < p.shape.getD 1 0 →
      p.entry [a, b] = q.entry [a, b]) (x y : ℤ) :
    zpad2 p x y = zpad2 q x y := by
  unfold zpad2
  rw [hs]
  by_cases hP : 0 ≤ x ∧ x < (p.shape.getD 0 0 : ℤ) ∧ 0 ≤ y ∧
      y < (p.shape.getD 1 0 : ℤ)
  · rw [if_pos hP, if_pos hP]
    obtain ⟨h1, h2, h3, h4⟩ := hP
    exact h x.toNat y.toNat (by omega) (by omega)
  · rw [if_neg hP, if_neg hP]

/-- A same-size convolution value depends only on the in-range entries of the
plane. -/
theorem sameConvEntry_congr (p q k : NDArray ℚ) (hs : q.shape = p.shape)
    (h : ∀ a b : ℕ, a < p.shape.getD 0 0 → b < p.shape.getD 1 0 →
      p.entry [a, b] = q.entry [a, b]) (x y : ℕ) :
    sameConvEntry p k x y = sameConvEntry q k x y := by
  unfold sameConvEntry
  apply Finset.sum_congr rfl
  intro i _
  apply Finset.sum_congr rfl
  intro j _
  rw [zpad2_congr p q hs h]

/-- C7: channels do not interfere: the output plane at channel `c` of
`apply_psf` depends only on the input plane `datacube[:, :, c]` and the
kernel — whenever two datacubes of the same shape that agree on channel `c`
both convolve successfully with a kernel, the outputs agree at every position
of channel `c`, the same single kernel being applied uniformly to every
channel.  (Success itself depends only on the common shape and the kernel, so
the two runs fail or succeed together.) -/
theorem C7_channel_noninterference (d1 d2 k o1 o2 : NDArray ℚ) (X Y C c : ℕ)
    (hd1 : d1.shape = [X, Y, C]) (hd2 : d2.shape = [X, Y, C]) (hc : c < C)
    (h1 : apply_psf d1 k = some o1) (h2 : apply_psf d2 k = some o2)
    (hagree : ∀ x < X, ∀ y < Y, d1.entry [x, y, c] = d2.entry [x, y, c]) :
    ∀ x y, o1.entry [x, y, c] = o2.entry [x, y, c] := by
  obtain ⟨-, h13⟩ := apply_psf_some_inv d1 k o1 X Y C hd1 h1
  obtain ⟨-, h23⟩ := apply_psf_some_inv d2 k o2 X Y C hd2 h2
  intro x y
  rw [h13 x y c hc, h23 x y c hc]
  have hs1 : (sliceAxis2 d1 c).shape = [X, Y] := by simp [sliceAxis2, hd1]
  have hs2 : (sliceAxis2 d2 c).shape = [X, Y] := by simp [sliceAxis2, hd2]
  apply sameConvEntry_congr
  · rw [hs1, hs2]
  · intro a b ha hb
    rw [hs1] at ha hb
    show d1.entry [a, b, c] = d2.entry [a, b, c]
    exact hagree a (by simpa using ha) b (by simpa using hb)

/-- A second concrete 2 × 2 × 1 datacube agreeing with `sampleCube` on
channel 0 but differing elsewhere (as a function). -/
def sampleCubeB : NDArray ℚ :=
  ⟨[2, 2, 1], fun ix => (ix.getD 0 0 : ℚ) + 2 * (ix.getD 1 0 : ℚ) + 5 * (ix.getD 2 0 : ℚ)⟩

/-- The concrete output of `apply_psf` on `sampleCube` with `sampleKernel`. -/
def psfOutA : NDArray ℚ :=
  (apply_psf sampleCube sampleKernel).getD ⟨[], fun _ => 0⟩

/-- The concrete output of `apply_psf` on `sampleCubeB` with `sampleKernel`. -/
def psfOutB : NDArray ℚ :=
  (apply_psf sampleCubeB sampleKernel).getD ⟨[], fun _ => 0⟩

/-- Witness for C7: two concrete cubes agreeing on channel 0 yield, at a
concrete position of channel 0, the same output value. -/
theorem C7_witness : psfOutA.entry [0, 1, 0] = psfOutB.entry [0, 1, 0] :=
  C7_channel_noninterference sampleCube sampleCubeB sampleKernel psfOutA psfOutB
    2 2 1 0 rfl rfl (by decide) rfl rfl
    (by
      intro x hx y hy
      interval_cases x <;> interval_cases y <;> norm_num [sampleCube, sampleCubeB])
    0 1

/-- Zero-padded reads are linear: if `p` is the entrywise combination
`a•q + b•r` of two planes of its shape, so is every padded read. -/
theorem zpad2_comb (p q r : NDArray ℚ) (a b : ℚ)
    (hpq : q.shape = p.shape) (hpr : r.shape = p.shape)
    (h : ∀ ix, p.entry ix = a * q.entry ix + b * r.entry ix) (x y : ℤ) :
    zpad2 p x y = a * zpad2 q x y + b * zpad2 r x y := by
  unfold zpad2
  rw [hpq, hpr]
  by_cases hP : 0 ≤ x ∧ x < (p.shape.getD 0 0 : ℤ) ∧ 0 ≤ y ∧
      y < (p.shape.getD 1 0 : ℤ)
  · rw [if_pos hP, if_pos hP, if_pos hP]
    exact h _
  · rw [if_neg hP, if_neg hP, if_neg hP]
    ring

/-- Same-size convolution is linear in the plane. -/
theorem sameConvEntry_comb (p q r k : NDArray ℚ) (a b : ℚ)
    (hpq : q.shape = p.shape) (hpr : r.shape = p.shape)
    (h : ∀ ix, p.entry ix = a * q.entry ix + b * r.entry ix) (x y : ℕ) :
    sameConvEntry p k x y = a * sameConvEntry q k x y + b * sameConvEntry r k x y := by
  unfold sameConvEntry
  rw [Finset.mul_sum, Finset.mul_sum, ← Finset.sum_add_distrib]
  apply Finset.sum_congr rfl
  intro i _
  rw [Finset.mul_sum, Finset.mul_sum, ← Finset.sum_add_distrib]
  apply Finset.sum_congr rfl
  intro j _
  rw [zpad2_comb p q r a b hpq hpr h]
  ring

/-- C10: `apply_psf` is linear in the datacube over exact arithmetic: for
datacubes `A` and `B` of the same 3-dimensional shape, scalars `a` and `b`,
and any kernel `k`, whenever the three runs produce outputs (their success
depends only on the common shape and the kernel, so they fail or succeed
together), `apply_psf (a•A + b•B) k` equals
`a • apply_psf A k + b • apply_psf B k` entrywise. -/
theorem C10_apply_psf_linear (A B k oS oA oB : NDArray ℚ) (a b : ℚ) (X Y C : ℕ)
    (hA : A.shape = [X, Y, C]) (hB : B.shape = [X, Y, C])
    (hgS : apply_psf ((A.scale a).addE (B.scale b)) k = some oS)
    (hgA : apply_psf A k = some oA) (hgB : apply_psf B k = some oB) :
    NDArray.Eqv oS ((oA.scale a).addE (oB.scale b)) := by
  have hS : ((A.scale a).addE (B.scale b)).shape = [X, Y, C] := hA
  obtain ⟨hS2, hS3⟩ := apply_psf_some_inv _ k oS X Y C hS hgS
  obtain ⟨hA2, hA3⟩ := apply_psf_some_inv A k oA X Y C hA hgA
  obtain ⟨hB2, hB3⟩ := apply_psf_some_inv B k oB X Y C hB hgB
  refine ⟨?_, ?_⟩
  · rw [hS2]
    show _ = oA.shape
    rw [hA2]
  · intro ix hix
    rw [hS2] at hix
    obtain ⟨x, y, c, rfl, hx, hy, hc⟩ := (mem_allIdx3 X Y C ix).1 hix
    show oS.entry [x, y, c] = a * oA.entry [x, y, c] + b * oB.entry [x, y, c]
    rw [hS3 x y c hc, hA3 x y c hc, hB3 x y c hc]
    apply sameConvEntry_comb
    · rfl
    · show (sliceAxis2 B c).shape = (sliceAxis2 ((A.scale a).addE (B.scale b)) c).shape
      show B.shape.eraseIdx 2 = A.shape.eraseIdx 2
      rw [hA, hB]
    · intro ix2
      rfl

/-- A third concrete 2 × 2 × 1 datacube for the linearity witness. -/
def sampleCubeC : NDArray ℚ :=
  ⟨[2, 2, 1], fun ix => 3 * (ix.getD 0 0 : ℚ) - (ix.getD 1 0 : ℚ)⟩

/-- The concrete output of `apply_psf` on the combination
`2 • sampleCube + (-3) • sampleCubeC` with `sampleKernel`. -/
def psfOutS : NDArray ℚ :=
  (apply_psf ((sampleCube.scale 2).addE (sampleCubeC.scale (-3)))
    sampleKernel).getD ⟨[], fun _ => 0⟩

/-- The concrete output of `apply_psf` on `sampleCubeC` with `sampleKernel`. -/
def psfOutC : NDArray ℚ :=
  (apply_psf sampleCubeC sampleKernel).getD ⟨[], fun _ => 0⟩

/-- Witness for C10 at two concrete cubes and scalars 2 and -3. -/
theorem C10_witness :
    NDArray.Eqv psfOutS ((psfOutA.scale 2).addE (psfOutC.scale (-3))) :=
  C10_apply_psf_linear sampleCube sampleCubeC sampleKernel psfOutS psfOutA
    psfOutC 2 (-3) 2 2 1 rfl rfl rfl rfl rfl

/-- C4: for all valid parameters (positive integer height and width, positive
spread), the kernel builder returns an `height × width` matrix whose entries
are non-negative and sum to exactly 1 (floats modelled as exact reals). -/
theorem C4_gaussian_kernel_normalized (height width spread : ℝ)
    (hh : 0 < height) (hhi : Int.fract height = 0)
    (hw : 0 < width) (hwi : Int.fract width = 0) (hs : 0 < spread) :
    ∃ K, gaussian_kernel_2d height width spread = Except.ok K ∧
      K.shape = [(⌊height⌋).toNat, (⌊width⌋).toNat] ∧
      (∀ i j : ℕ, 0 ≤ K.entry [i, j]) ∧
      ∑ i in Finset.range (⌊height⌋).toNat, ∑ j in Finset.range (⌊width⌋).toNat,
        K.entry [i, j] = 1 := by
  have hcond : 0 < height ∧ Int.fract height = 0 ∧ 0 < width ∧
      Int.fract width = 0 ∧ 0 < spread := ⟨hh, hhi, hw, hwi, hs⟩
  have hflh : (⌊height⌋ : ℝ) = height := by
    have h1 : height - ⌊height⌋ = 0 := hhi
    linarith
  have hflw : (⌊width⌋ : ℝ) = width := by
    have h1 : width - ⌊width⌋ = 0 := hwi
    linarith
  have hR : 1 ≤ (⌊height⌋).toNat := by
    have h1 : (0 : ℤ) < ⌊height⌋ := by
      have : (0 : ℝ) < (⌊height⌋ : ℝ) := by rw [hflh]; exact hh
      exact_mod_cast this
    omega
  have hW : 1 ≤ (⌊width⌋).toNat := by
    have h1 : (0 : ℤ) < ⌊width⌋ := by
      have : (0 : ℝ) < (⌊width⌋ : ℝ) := by rw [hflw]; exact hw
      exact_mod_cast this
    omega
  have hSpos : 0 < ∑ i in Finset.range (⌊height⌋).toNat,
      ∑ j in Finset.range (⌊width⌋).toNat, gaussianDensity height width spread i j := by
    apply Finset.sum_pos
    · intro i _
      apply Finset.sum_pos
      · intro j _
        exact Real.exp_pos _
      · exact Finset.nonempty_range_iff.mpr (by omega)
    · exact Finset.nonempty_range_iff.mpr (by omega)
  have heq : gaussian_kernel_2d height width spread = Except.ok
      ⟨[(⌊height⌋).toNat, (⌊width⌋).toNat],
        fun ix => gaussianDensity height width spread (ix.getD 0 0) (ix.getD 1 0) /
          ∑ i in Finset.range (⌊height⌋).toNat,
            ∑ j in Finset.range (⌊width⌋).toNat,
              gaussianDensity height width spread i j⟩ := by
    unfold gaussian_kernel_2d
    rw [if_pos hcond]
  refine ⟨_, heq, rfl, ?_, ?_⟩
  · intro i j
    show 0 ≤ gaussianDensity height width spread i j / _
    exact div_nonneg (Real.exp_pos _).le hSpos.le
  · show (∑ i in Finset.range (⌊height⌋).toNat,
        ∑ j in Finset.range (⌊width⌋).toNat,
          gaussianDensity height width spread i j /
            ∑ i in Finset.range (⌊height⌋).toNat,
              ∑ j in Finset.range (⌊width⌋).toNat,
                gaussianDensity height width spread i j) = 1
    rw [Finset.sum_congr rfl fun i _ => (Finset.sum_div _ _ _).symm,
      ← Finset.sum_div, div_self hSpos.ne']

/-- Witness for C4: the spec scenario `build_gaussian_kernel(20, 20, 3.5)` has
shape `(20, 20)` and total mass 1. -/
theorem C4_witness :
    ∃ K, gaussian_kernel_2d 20 20 (7 / 2) = Except.ok K ∧ K.shape = [20, 20] ∧
      (∀ i j : ℕ, 0 ≤ K.entry [i, j]) ∧
      ∑ i in Finset.range 20, ∑ j in Finset.range 20, K.entry [i, j] = 1 := by
  have hfr : Int.fract (20 : ℝ) = 0 := by
    have h1 : ((20 : ℤ) : ℝ) = (20 : ℝ) := by norm_num
    rw [← h1, Int.fract_intCast]
  have h20 : (⌊(20 : ℝ)⌋).toNat = 20 := by
    norm_num
    rfl
  have h := C4_gaussian_kernel_normalized 20 20 (7 / 2) (by norm_num) hfr
    (by norm_num) hfr (by norm_num)
  rw [h20] at h
  exact h

/-- C8: the kernel builder fails with the `InvalidParameter` error kind, before
any computation, when height or width is non-positive or non-integer, or when
spread is non-positive. -/
theorem C8_gaussian_invalid_params (height width spread : ℝ)
    (h : height ≤ 0 ∨ Int.fract height ≠ 0 ∨ width ≤ 0 ∨ Int.fract width ≠ 0 ∨
      spread ≤ 0) :
    gaussian_kernel_2d height width spread =
      Except.error RubixErrorKind.InvalidParameter := by
  unfold gaussian_kernel_2d
  rw [if_neg]
  rintro ⟨h1, h2, h3, h4, h5⟩
  rcases h with h | h | h | h | h
  · linarith
  · exact h h2
  · linarith
  · exact h h4
  · linarith

/-- Witness for C8: the spec's error scenario
`build_gaussian_kernel(0, 20, 3.5)` fails with `InvalidParameter`. -/
theorem C8_witness :
    gaussian_kernel_2d 0 20 (7 / 2) =
      Except.error RubixErrorKind.InvalidParameter :=
  C8_gaussian_invalid_params 0 20 (7 / 2) (Or.inl le_rfl)
